import Mathlib

/-!
Shallow embedding of the completion core in `jedi/api/completion.py`.

Pure data (names, candidates, parse-stack frames, tree leaves/nodes) is modelled by plain
structures; every external collaborator (parser, inference, import resolver, path completer,
plugins) is modelled as a function-valued field of an oracle record, mirroring the contracts
the source calls into.  Python strings are sequences of code points, so the string operations
used by the source (slicing, lower-casing, startswith) are modelled over `List Char`.
-/

namespace Jedi

/-- Model of Python `str.lower` for a single code point (ASCII range, which covers every
string the completion core compares). -/
def lowerChar (c : Char) : Char :=
  if 65 ≤ c.toNat ∧ c.toNat ≤ 90 then Char.ofNat (c.toNat + 32) else c

/-- Model of Python `str.lower`. -/
def lowerString (s : String) : String := String.mk (s.toList.map lowerChar)

/-- Model of Python slicing `s[:n]`. -/
def strTake (s : String) (n : Nat) : String := String.mk (s.toList.take n)

/-- Model of Python slicing `s[n:]`. -/
def strDrop (s : String) (n : Nat) : String := String.mk (s.toList.drop n)

/-- Model of Python slicing `s[-n:]` (the last `min n (length s)` code points). -/
def strTakeRight (s : String) (n : Nat) : String :=
  String.mk ((s.toList.reverse.take n).reverse)

/-- Model of Python `s.startswith(pre)`. -/
def strStartsWith (s pre : String) : Bool := pre.toList.isPrefixOf s.toList

/-- Model of Python substring containment `small in big` (used by
`Completion._is_parameter_completion`, where the source tests membership of a nonterminal
name in the string literal "parameters"). -/
def strInStr (small big : String) : Bool :=
  (List.range (big.toList.length + 1)).any fun i => small.toList.isPrefixOf (big.toList.drop i)

/-- Order-preserving, not necessarily contiguous containment of one code-point sequence in
another. -/
def isSubseqChars : List Char → List Char → Bool
  | [], _ => true
  | _ :: _, [] => false
  | a :: as, b :: bs => if a = b then isSubseqChars as bs else isSubseqChars (a :: as) bs

/-- Code-point-wise lexicographic order on strings, as Python compares `str` values. -/
def charListLe : List Char → List Char → Bool
  | [], _ => true
  | _ :: _, [] => false
  | a :: as, b :: bs =>
    if a.toNat < b.toNat then true
    else if b.toNat < a.toNat then false
    else charListLe as bs

/-- A (line, column) source position; lines are 1-based, like parso positions. -/
abbrev Pos := Nat × Nat

/-- Python tuple comparison `a < b` on positions. -/
def posLt (a b : Pos) : Bool := a.1 < b.1 || (a.1 == b.1 && decide (a.2 < b.2))

/-- Python tuple comparison `a <= b` on positions. -/
def posLe (a b : Pos) : Bool := a.1 < b.1 || (a.1 == b.1 && decide (a.2 ≤ b.2))

/-- A raw completion name entry as produced by the scope/inference collaborators.
`string_name` and `api_type` are the attributes the source reads off a name.  `display` and
`complete` model what `classes.Completion` (an external collaborator) computes from the name
and the like-name: the displayed name and the completion suffix; the source keys candidates
by that pair. -/
structure Name where
  string_name : String
  api_type : String
  display : String
  complete : String
deriving DecidableEq, Repr

/-- Modelled from the spec: the keyword-token enumeration collaborator
(`keywords.KeywordName`), which wraps an alphabetic allowed-transition symbol as a keyword
candidate. -/
def keywordName (k : String) : Name :=
  { string_name := k, api_type := "keyword", display := k, complete := k }

/-- Modelled from the spec: the prefix-match collaborator `helpers.start_match` — the
candidate name starts with the like-name. -/
def start_match (s like_name : String) : Bool := strStartsWith s like_name

/-- Modelled from the spec: the fuzzy-match collaborator `helpers.fuzzy_match` — every
character of the like-name appears in the candidate name in order, not necessarily
contiguously. -/
def fuzzy_match (s like_name : String) : Bool := isSubseqChars like_name.toList s.toList

/-- A candidate emitted by `filter_names`: the accepted name plus its (initially empty)
list of merged same-name completions (`_same_name_completions` in the source). -/
structure Emitted where
  cand : Name
  same_name_completions : List Name
deriving DecidableEq, Repr

/-- The identity key `(new.name, new.complete)` used by `filter_names`. -/
def candKeyOf (n : Name) : String × String := (n.display, n.complete)

/-- `comp_dct[k]._same_name_completions.append(new)`: append `n` to the same-name list of the
first already-emitted candidate with key `k`. -/
def appendSameName (k : String × String) (n : Name) : List Emitted → List Emitted
  | [] => []
  | e :: rest =>
    if candKeyOf e.cand = k then
      { e with same_name_completions := e.same_name_completions ++ [n] } :: rest
    else e :: appendSameName k n rest

/-- The per-name match test of `filter_names` (with the like-name not yet lowered). -/
def nameMatches (case_insensitive fuzzy : Bool) (like_name : String) (n : Name) : Bool :=
  let s := if case_insensitive then lowerString n.string_name else n.string_name
  let like := if case_insensitive then lowerString like_name else like_name
  if fuzzy then fuzzy_match s like else start_match s like

/-- The loop body of `filter_names`: `acc` holds the candidates yielded so far, in order;
the dictionary `comp_dct` of the source has exactly the keys of the candidates in `acc`. -/
def filter_names_loop (case_insensitive no_duplicates fuzzy : Bool) (like : String) :
    List Name → List Emitted → List Emitted
  | [], acc => acc
  | n :: rest, acc =>
    let s := if case_insensitive then lowerString n.string_name else n.string_name
    let matched := if fuzzy then fuzzy_match s like else start_match s like
    if matched then
      let k := candKeyOf n
      if (acc.any fun e => candKeyOf e.cand = k) && no_duplicates then
        filter_names_loop case_insensitive no_duplicates fuzzy like rest (appendSameName k n acc)
      else
        filter_names_loop case_insensitive no_duplicates fuzzy like rest (acc ++ [⟨n, []⟩])
    else filter_names_loop case_insensitive no_duplicates fuzzy like rest acc

/-- `filter_names` from the source: match each name against the like-name, build candidates,
and de-duplicate by key when `settings.no_completion_duplicates` is set (a duplicate is
appended to the first candidate's same-name list instead of being emitted). -/
def filter_names (case_insensitive no_duplicates fuzzy : Bool) (like_name : String)
    (completion_names : List Name) : List Emitted :=
  let like := if case_insensitive then lowerString like_name else like_name
  filter_names_loop case_insensitive no_duplicates fuzzy like completion_names []

/-- The ranking key of `Completion.complete`:
`(x.name.startswith('__'), x.name.startswith('_'), x.name.lower())`. -/
def sortKey (e : Emitted) : Bool × Bool × String :=
  (strStartsWith e.cand.display "__", strStartsWith e.cand.display "_",
   lowerString e.cand.display)

/-- `false < true`, as Python orders booleans inside a sort key tuple. -/
def boolLe (a b : Bool) : Bool := !a || b

/-- Lexicographic comparison of ranking keys, as Python compares key tuples. -/
def keyLe : Bool × Bool × String → Bool × Bool × String → Bool
  | (a1, a2, a3), (b1, b2, b3) =>
    if a1 = b1 then
      if a2 = b2 then charListLe a3.toList b3.toList
      else boolLe a2 b2
    else boolLe a1 b1

/-- Candidate order used by the final `sorted(...)` call. -/
def completionLe (x y : Emitted) : Bool := keyLe (sortKey x) (sortKey y)

/-- Model of Python `sorted` (a stable ascending sort by key). -/
def sortCompletions (l : List Emitted) : List Emitted := l.mergeSort completionLe

/-- One symbol of `stack._allowed_transition_names_and_token_types()`: either a token type
such as NAME or INDENT, or a plain string (keyword or operator). -/
inductive Transition where
  | tok (t : String)
  | sym (s : String)
deriving DecidableEq, Repr

/-- One frame of the parse stack: its nonterminal, the rule the dfa comes from, and the
already-matched nodes at that level (the source only ever compares those nodes with string
literals or reads their value, so they are modelled as strings). -/
structure StackNode where
  nonterminal : String
  from_rule : String
  nodes : List String
deriving DecidableEq, Repr

/-- The parse stack produced by `helpers.get_stack_at_position`, together with its allowed
next transitions. -/
structure ParseStack where
  nodes : List StackNode
  allowed : List Transition
deriving DecidableEq, Repr

/-- The error leaf carried by a `helpers.OnErrorLeaf` failure. -/
structure ErrorLeaf where
  value : String
deriving DecidableEq, Repr

/-- An atomic token of the parse tree, with its type, value, full code (prefix included,
as `get_code()` returns it) and start/end positions. -/
structure PLeaf where
  type : String
  value : String
  code : String
  start_pos : Pos
  end_pos : Pos
deriving DecidableEq, Repr

/-- `leaf.line` is the first component of its start position. -/
def PLeaf.line (l : PLeaf) : Nat := l.start_pos.1

/-- `leaf.column` is the second component of its start position. -/
def PLeaf.column (l : PLeaf) : Nat := l.start_pos.2

/-- A non-leaf tree node as the flow-ancestor walk and the class-ancestor check see it:
its type, its starting column, and — when its first child is a leaf — that leaf's value. -/
structure PNode where
  type : String
  start_col : Nat
  first_leaf_child_value : Option String
deriving DecidableEq, Repr

/-- A syntactic tree node with children, as `_complete_getattr` and `_complete_params`
inspect return statements and decorator fragments. -/
inductive TNode where
  | node (type : String) (value : String) (children : List TNode)
deriving Repr

/-- The `type` attribute of a tree node. -/
def TNode.type : TNode → String
  | .node t _ _ => t

/-- The `value` attribute of a tree node. -/
def TNode.value : TNode → String
  | .node _ v _ => v

/-- The `children` attribute of a tree node. -/
def TNode.children : TNode → List TNode
  | .node _ _ c => c

/-- An inferred value, as seen through the collaborator contract the source uses:
whether it is a stub, whether it is a `TreeInstance`, and the name filters
(`value.get_filters(origin_scope=...)`, each filter already flattened to its
`values()`). -/
structure Value where
  is_stub : Bool
  is_tree_instance : Bool
  filters : List (List Name)
deriving DecidableEq, Repr

/-- A `__getattr__`/`__getattribute__` function value: its syntactic return statements
(`tree_node.iter_return_stmts()`), and its context's `goto` and `infer_node` collaborator
functions. -/
structure FuncModel where
  return_stmts : List TNode
  goto : TNode → List Name
  infer_node : TNode → List Value

/-- One function-slot name, exposing `name.infer()`. -/
structure SlotName where
  infer : List FuncModel

/-- One parameter of a call signature, with its kind and its name entry. -/
structure SigParam where
  kind : String
  name : Name

/-- One call signature returned by the signatures callback. -/
structure Signature where
  params : List SigParam

/-- Request-independent collaborators and configuration: the source lines, the two
`settings` flags the source reads, and the external resolvers that do not depend on the
cursor position. `rec_fuel` bounds the mutual recursion between `_complete_getattr` and
`_complete_trailer_for_values` (finite in Python because inference terminates). -/
structure Globals where
  code_lines : List String
  case_insensitive_completion : Bool
  no_completion_duplicates : Bool
  complete_file_name : String → PLeaf → String → Pos → Bool → List Emitted
  convert_values : List Value → List Value
  get_function_slot_names : Value → String → List SlotName
  get_decorators : TNode → List TNode
  importer_names : List String → Nat → Bool → List Name
  parse_dotted_names : List String → Bool → Nat × List String
  rec_fuel : Nat

/-- Everything the collaborators answer for one queried position: the leaf at the position
(head of `leaf_chain`) together with its chain of previous leaves, the parse stack or its
error-leaf failure, the ancestors of the previous leaf, the global scope filters, the
enclosing classdef, the per-class filters, the values inferred for the leaf before a dot,
the signatures at the position, and the parameter-completion collaborators. -/
structure PosQueries where
  leaf_chain : List PLeaf
  cut_value : PLeaf → String
  stack : Except ErrorLeaf ParseStack
  prev_ancestors : Option (List PNode)
  global_filters : List (List Name)
  classdef_ancestor : Option PNode
  class_filters : PNode → List (List Name)
  dot_prev_values : List Value
  signatures : List Signature
  param_ancestor : Option TNode
  param_names : String → List TNode → List Name

/-- The full collaborator bundle: global data plus the per-position query answers. -/
structure Oracle where
  globals : Globals
  atPos : Pos → PosQueries

/-- Placeholder leaf (the parser always yields a leaf, an endmarker at worst). -/
def defaultLeaf : PLeaf :=
  { type := "", value := "", code := "", start_pos := (0, 0), end_pos := (0, 0) }

/-- Placeholder stack frame (the parse stack is never empty in the source). -/
def defaultStackNode : StackNode := { nonterminal := "", from_rule := "", nodes := [] }

/-- Placeholder tree node. -/
def defaultTNode : TNode := .node "" "" []

/-- The leaf at the queried position (head of the leaf chain). -/
def headLeaf (Q : PosQueries) : PLeaf := Q.leaf_chain.headD defaultLeaf

/-- `get_signature_param_names`: the named params of each signature whose kind is
positional-or-keyword or keyword-only. -/
def get_signature_param_names (signatures : List Signature) : List Name :=
  (signatures.map fun s =>
    (s.params.filter fun p =>
      p.kind == "POSITIONAL_OR_KEYWORD" || p.kind == "KEYWORD_ONLY").map SigParam.name).flatten

/-- `Completion._complete_global_scope`: concatenate the values of every global filter,
innermost first (the filters come from `get_global_filters` at the position). -/
def complete_global_scope (Q : PosQueries) : List Name := Q.global_filters.flatten

/-- `Completion._complete_keywords`: every allowed transition that is a string and
`isalpha()` becomes a keyword candidate. -/
def complete_keywords (allowed_transitions : List Transition) : List Name :=
  allowed_transitions.filterMap fun t =>
    match t with
    | .sym k => if !k.toList.isEmpty && k.toList.all Char.isAlpha then some (keywordName k)
                else none
    | .tok _ => none

/-- The continuation keywords contributed per (possibly reinterpreted) statement type:
`if_stmt` adds elif/else, `try_stmt` adds except/finally/else, `for_stmt` adds else, and
every other type (including `while_stmt`) adds nothing. -/
def flowStmtKeywords (stmtType : String) : List String :=
  if stmtType = "if_stmt" then ["elif", "else"]
  else if stmtType = "try_stmt" then ["except", "finally", "else"]
  else if stmtType = "for_stmt" then ["else"]
  else []

/-- Reinterpretation of an `error_node` ancestor: if its first child is a leaf, its role is
that leaf's value with `_stmt` appended; otherwise the type is left as is. -/
def reinterpretedType (stmt : PNode) : String :=
  if stmt.type = "error_node" then
    match stmt.first_leaf_child_value with
    | some v => v ++ "_stmt"
    | none => stmt.type
  else stmt.type

/-- The keywords one visited ancestor contributes: its continuation keywords when its
starting column equals the alignment indent, nothing otherwise. -/
def stmtContribution (indent : Nat) (stmt : PNode) : List String :=
  if stmt.start_col = indent then flowStmtKeywords (reinterpretedType stmt) else []

/-- The flow-ancestor statement types `search_ancestor` is asked for. -/
def flowAncestorTypes : List String :=
  ["if_stmt", "for_stmt", "while_stmt", "try_stmt", "error_node"]

/-- The `while True` walk over the ancestor chain of the previous leaf: `search_ancestor`
returns the nearest ancestor with one of the requested types and the walk restarts from it,
so the loop scans the chain keeping exactly the flow/error-typed ancestors, accumulating
each one's contribution. -/
def flowWalk (indent : Nat) : List PNode → List String
  | [] => []
  | stmt :: rest =>
    if stmt.type ∈ flowAncestorTypes then stmtContribution indent stmt ++ flowWalk indent rest
    else flowWalk indent rest

/-- The alignment indent: the position's column, unless the position lies outside the
leaf's extent, in which case the leaf's starting column. -/
def alignIndent (Q : PosQueries) (pos : Pos) : Nat :=
  let leaf := headLeaf Q
  if posLe leaf.start_pos pos && posLe pos leaf.end_pos then pos.2 else leaf.start_pos.2

/-- The `if 'if' in allowed_transitions` block of `_complete_python`: when an `if`
continuation is allowed and a previous leaf exists, extend the allowed transitions with the
continuation keywords collected by the flow-ancestor walk. -/
def extendTransitions (Q : PosQueries) (pos : Pos) (allowed_transitions : List Transition) :
    List Transition :=
  if Transition.sym "if" ∈ allowed_transitions then
    match Q.prev_ancestors with
    | none => allowed_transitions
    | some chain =>
      allowed_transitions ++ (flowWalk (alignIndent Q pos) chain).map Transition.sym
  else allowed_transitions

/-- `Completion._complete_inherited`: no candidates without an enclosing classdef, or when
the classdef does not start strictly left of the leaf; otherwise skip the first filter (the
class's own dict) and keep the names whose being-a-function matches `is_function`. -/
def complete_inherited (Q : PosQueries) (is_function : Bool) : List Name :=
  match Q.classdef_ancestor with
  | none => []
  | some cls =>
    if (headLeaf Q).start_pos.2 ≤ cls.start_col then []
    else
      ((Q.class_filters cls).drop 1).flatten.filter fun n =>
        (n.api_type == "function") == is_function

/-- `Completion._is_parameter_completion`.  Note the second test of the source is Python
string containment (`tos.nonterminal in 'parameters'`), a substring check. -/
def is_parameter_completion (stack : ParseStack) : Bool :=
  let tos := stack.nodes.getLastD defaultStackNode
  if tos.nonterminal == "lambdef" && tos.nodes.length == 1 then true
  else if strInStr tos.nonterminal "parameters" then true
  else
    (tos.nonterminal == "typedargslist" || tos.nonterminal == "varargslist") &&
      tos.nodes.getLast? == some ","

/-- `Completion._complete_params`: when the frame below the top (or the one below a
`parameters` frame) is a funcdef, read the decorators off the enclosing funcdef or
error-node fragment and delegate to the pluggable parameter-name provider.  The source
assumes `search_ancestor(leaf, 'error_node', 'funcdef')` finds a node here; a missing
ancestor is modelled as no candidates. -/
def complete_params (G : Globals) (Q : PosQueries) (stack : ParseStack) : List Name :=
  let sn := stack.nodes.reverse.getD 1 defaultStackNode
  let stack_node := if sn.nonterminal = "parameters" then stack.nodes.reverse.getD 2 defaultStackNode
                    else sn
  if stack_node.nonterminal = "funcdef" then
    match Q.param_ancestor with
    | none => []
    | some node =>
      let decorators :=
        if node.type = "error_node" then
          let n := node.children.getD 0 defaultTNode
          if n.type = "decorators" then n.children
          else if n.type = "decorator" then [n]
          else []
        else G.get_decorators node
      let function_name := stack_node.nodes.getD 1 ""
      Q.param_names function_name decorators
  else []

/-- The per-return-statement test and action of `_complete_getattr`: the guards of the
source in order (indexing a missing child yields the placeholder node, whose type fails the
following check exactly where the well-formed tree makes the index valid), ending with the
recursion into trailer resolution on the inferred first argument. -/
def getattrQualifyingResult (tfv : List Value → List Name) (func : FuncModel)
    (return_stmt : TNode) : Option (List Name) :=
  if return_stmt.type ≠ "return_stmt" then none
  else
    let atom_expr := return_stmt.children.getD 1 defaultTNode
    if atom_expr.type ≠ "atom_expr" then none
    else
      let atom := atom_expr.children.getD 0 defaultTNode
      let trailer := atom_expr.children.getD 1 defaultTNode
      if atom_expr.children.length ≠ 2 ∨ atom.type ≠ "name" ∨ atom.value ≠ "getattr" then none
      else
        let arglist := trailer.children.getD 1 defaultTNode
        if arglist.type ≠ "arglist" ∨ arglist.children.length < 3 then none
        else
          let object_node := arglist.children.getD 0 defaultTNode
          let name_node := arglist.children.getD 2 defaultTNode
          if !((func.goto name_node).any fun n => n.api_type == "param") then none
          else some (tfv (func.infer_node object_node))

/-- The functions `_complete_getattr` inspects: the `__getattr__` slot names, or — when that
list is empty, as Python `or` chooses — the `__getattribute__` ones; each name's inferred
function values, concatenated. -/
def getattrFunctions (G : Globals) (inst : Value) : List FuncModel :=
  let names := match G.get_function_slot_names inst "__getattr__" with
    | [] => G.get_function_slot_names inst "__getattribute__"
    | l => l
  (names.map SlotName.infer).flatten

/-- `Completion._complete_getattr`, with the recursion into
`_complete_trailer_for_values` passed in as `tfv`: the first qualifying return statement of
the first function that has one decides the result; otherwise no candidates. -/
def complete_getattr (G : Globals) (tfv : List Value → List Name) (inst : Value) :
    List Name :=
  ((getattrFunctions G inst).findSome? fun func =>
    func.return_stmts.findSome? fun return_stmt =>
      getattrQualifyingResult tfv func return_stmt).getD []

/-- `Completion._complete_trailer_for_values`: for each value its filter values, plus the
getattr heuristic for live tree instances, then the filters of every converted value not
already present.  `fuel` bounds the mutual recursion with `_complete_getattr`. -/
def complete_trailer_for_values (G : Globals) : Nat → List Value → List Name
  | 0, _ => []
  | fuel + 1, values =>
    (values.map fun v =>
      v.filters.flatten ++
        (if !v.is_stub && v.is_tree_instance then
          complete_getattr G (complete_trailer_for_values G fuel) v
        else [])).flatten ++
    (((G.convert_values values).filter fun c => decide (c ∉ values)).map
      fun c => c.filters.flatten).flatten

/-- `Completion._complete_trailer` for the dot branch: the values inferred for the leaf
before the dot (`infer_call_of_leaf`, an external collaborator) fed to
`_complete_trailer_for_values`. -/
def complete_trailer (G : Globals) (Q : PosQueries) : List Name :=
  complete_trailer_for_values G G.rec_fuel Q.dot_prev_values

/-- `self._code_lines[self._position[0] - 1][:self._position[1]]`. -/
def currentLineAt (G : Globals) (pos : Pos) : String :=
  strTake (G.code_lines.getD (pos.1 - 1) "") pos.2

/-- `current_line[-1] in ' \t.;'` (false on the empty line, where the source never
evaluates it). -/
def lastCharTriggers (line : String) : Bool :=
  match line.toList.getLast? with
  | some c => c == ' ' || c == '\t' || c == '.' || c == ';'
  | none => false

/-- The keyword-harvest condition of `_complete_python`:
`not current_line or current_line[-1] in ' \t.;' and current_line[-3:] != '...'`
(Python binds the conjunction tighter than the disjunction). -/
def harvestCond (line : String) : Bool :=
  line == "" || (lastCharTriggers line && strTakeRight line 3 != "...")

/-- The flattening loop over the stack frames: nodes accumulate frame by frame and reset
whenever a frame's dfa comes from `small_stmt`. -/
def stackNodesFlat (stack : ParseStack) : List String :=
  stack.nodes.foldl (fun nodes sn => if sn.from_rule = "small_stmt" then [] else nodes ++ sn.nodes) []

/-- `nodes and nodes[-1] in ('as', 'def', 'class')`. -/
def lastIsAsDefClass (nodes : List String) : Bool :=
  match nodes.getLast? with
  | some v => v == "as" || v == "def" || v == "class"
  | none => false

/-- `Completion._complete_python`: recover from an error-leaf failure (empty for a dot,
global scope otherwise), extend the allowed transitions by the flow-ancestor walk, harvest
keywords, and dispatch on the stack contents; the `as`/`def`/`class` branch returns only
the inherited completions, every other branch appends to the harvested keywords, and the
signature-parameter names are appended when the last node opens or continues an argument
list. -/
def complete_python (G : Globals) (Q : PosQueries) (pos : Pos) : List Name :=
  match Q.stack with
  | .error e => if e.value = "." then [] else complete_global_scope Q
  | .ok stack =>
    let allowed_transitions := extendTransitions Q pos stack.allowed
    let completion_names :=
      if harvestCond (currentLineAt G pos) then complete_keywords allowed_transitions else []
    if allowed_transitions.any fun t => t == .tok "NAME" || t == .tok "INDENT" then
      let nonterminals := stack.nodes.map StackNode.nonterminal
      let nodes := stackNodesFlat stack
      if lastIsAsDefClass nodes then
        complete_inherited Q true
      else
        let completion_names :=
          if "import_stmt" ∈ nonterminals then
            let level_names := G.parse_dotted_names nodes (decide ("import_from" ∈ nonterminals))
            let only_modules := !(decide ("import_from" ∈ nonterminals) && nodes.contains "import")
            completion_names ++ G.importer_names level_names.2 level_names.1 only_modules
          else if (nonterminals.getLast? = some "trailer" ∨ nonterminals.getLast? = some "dotted_name")
              ∧ nodes.getLast? = some "." then
            completion_names ++ complete_trailer G Q
          else if is_parameter_completion stack then
            completion_names ++ complete_params G Q stack
          else
            completion_names ++ complete_global_scope Q ++ complete_inherited Q false
        if (nodes.getLast? = some "(" ∨ nodes.getLast? = some ",")
            ∧ (nonterminals.getLast? = some "trailer" ∨ nonterminals.getLast? = some "arglist"
               ∨ nonterminals.getLast? = some "decorator") then
          completion_names ++ get_signature_param_names Q.signatures
        else completion_names
    else completion_names

/-- Membership test for a code point in a string value. -/
def strHasChar (s : String) (c : Char) : Bool := s.toList.contains c

/-- The regular expression match at the head of a string token's value,
`\w*` followed by one of three-quote or one-quote (trying the long quotes first):
returns (match end, quote length). -/
def stringQuoteMatch (value : String) : Option (Nat × Nat) :=
  let w := value.toList.takeWhile fun c => c.isAlphanum || c == '_'
  let rest := value.toList.dropWhile fun c => c.isAlphanum || c == '_'
  match rest with
  | a :: b :: c :: _ =>
    if (a == '\x27' && b == '\x27' && c == '\x27') || (a == '"' && b == '"' && c == '"') then
      some (w.length + 3, 3)
    else if a == '\x27' || a == '"' then some (w.length + 1, 1)
    else none
  | [a] =>
    if a == '\x27' || a == '"' then some (w.length + 1, 1) else none
  | _ => none

/-- The backwards walk of `_extract_string_while_in_string` over the leaves of the cursor's
line (`leaves` accumulates the visited leaves left-to-right): stop at the line boundary, or
return the joined code of the accumulated leaves on reaching an error leaf holding a
quote. -/
def extractStringLoop (pos : Pos) : List PLeaf → List PLeaf → Option (String × PLeaf)
  | [], _ => none
  | leaf :: prevs, leaves =>
    if leaf.line ≠ pos.1 then none
    else if leaf.type == "error_leaf" && (strHasChar leaf.value '"' || strHasChar leaf.value '\x27') then
      some (String.join (leaves.map PLeaf.code), leaf)
    else extractStringLoop pos prevs (leaf :: leaves)

/-- `_extract_string_while_in_string`: inside a string token, recover the typed part after
the opening quote unless the position sits on the quote itself or after the closing quote;
otherwise scan the current line backwards for a broken-quote error leaf.  A string token
failing the quote match would raise in the source; the tokenizer guarantees the match, and
the failure is modelled as no string context. -/
def extract_string_while_in_string (Q : PosQueries) (pos : Pos) : Option (String × PLeaf) :=
  match Q.leaf_chain with
  | [] => none
  | leaf :: prevs =>
    if posLt pos leaf.start_pos then none
    else if leaf.type = "string" then
      match stringQuoteMatch leaf.value with
      | none => none
      | some (matchEnd, quoteLen) =>
        if leaf.line = pos.1 ∧ pos.2 < leaf.column + matchEnd then none
        else if leaf.end_pos.1 = pos.1 ∧ (pos.2 : Int) > (leaf.end_pos.2 : Int) - (quoteLen : Int) then
          none
        else some (strDrop (Q.cut_value leaf) matchEnd, leaf)
    else extractStringLoop pos (leaf :: prevs) []

/-- The per-request state built by `Completion.__init__`: the like-name (computed by the
external `helpers.get_on_completion_name`), the original cursor position, and the effective
position shifted left by the like-name's length. -/
structure CompState where
  like_name : String
  original_position : Pos
  position : Pos
deriving DecidableEq, Repr

/-- `Completion.__init__`: record the original position and shift the effective position's
column left by the length of the like-name. -/
def mkCompletion (like_name : String) (position : Pos) : CompState :=
  { like_name := like_name, original_position := position,
    position := (position.1, position.2 - like_name.toList.length) }

/-- The grammar-based pipeline of `Completion.complete`: classify via `_complete_python`,
filter against the like-name, and sort by the ranking key. -/
def grammarCompletions (O : Oracle) (st : CompState) (fuzzy : Bool) : List Emitted :=
  sortCompletions (filter_names O.globals.case_insensitive_completion
    O.globals.no_completion_duplicates fuzzy st.like_name
    (complete_python O.globals (O.atPos st.position) st.position))

/-- `Completion.complete`: when the position is inside an unterminated string, delegate to
the external path/string completer and return its candidates unchanged when it produced
any; otherwise run the grammar-based pipeline. -/
def Completion.complete (O : Oracle) (st : CompState) (fuzzy : Bool) : List Emitted :=
  let Q := O.atPos st.position
  match extract_string_while_in_string Q st.position with
  | some (string, start_leaf) =>
    let completions :=
      O.globals.complete_file_name string start_leaf st.like_name st.original_position fuzzy
    if completions.isEmpty then grammarCompletions O st fuzzy else completions
  | none => grammarCompletions O st fuzzy

/-- The qualification test of the attribute-access heuristic, stated structurally: the
return statement's payload is an `atom_expr` of exactly two parts, a name leaf spelled
`getattr` and one trailer; the trailer's second child is an `arglist` with a first and a
third child; and the third child resolves by `goto` to at least one parameter. -/
def qualifiesGetattrReturn (func : FuncModel) : TNode → Bool
  | .node ty _ (_ :: .node aty _
      [.node nty nval _,
       .node _ _ (_ :: .node gty _ (_ :: _ :: third_arg :: _) :: _)] :: _) =>
    ty == "return_stmt" && aty == "atom_expr" && nty == "name" && nval == "getattr" &&
      gty == "arglist" && ((func.goto third_arg).any fun n => n.api_type == "param")
  | _ => false

/-- The first argument (`arglist.children[0]`) of a qualifying return statement. -/
def getattrFirstArg (r : TNode) : TNode :=
  ((((r.children.getD 1 defaultTNode).children.getD 1 defaultTNode).children.getD 1
      defaultTNode).children.getD 0 defaultTNode)

/-- A collaborator bundle with empty answers, the base of the concrete test fixtures. -/
def emptyGlobals : Globals :=
  { code_lines := [""], case_insensitive_completion := false,
    no_completion_duplicates := true,
    complete_file_name := fun _ _ _ _ _ => [],
    convert_values := fun _ => [],
    get_function_slot_names := fun _ _ => [],
    get_decorators := fun _ => [],
    importer_names := fun _ _ _ => [],
    parse_dotted_names := fun _ _ => (0, []),
    rec_fuel := 8 }

/-- Position-query answers with nothing at the position. -/
def emptyQueries : PosQueries :=
  { leaf_chain := [], cut_value := fun _ => "",
    stack := .ok { nodes := [], allowed := [] },
    prev_ancestors := none, global_filters := [], classdef_ancestor := none,
    class_filters := fun _ => [], dot_prev_values := [], signatures := [],
    param_ancestor := none, param_names := fun _ _ => [] }

/-- A minimal full oracle. -/
def sampleOracle : Oracle := { globals := emptyGlobals, atPos := fun _ => emptyQueries }

/-- A sample scope name. -/
def sampleName : Name :=
  { string_name := "foo", api_type := "statement", display := "foo", complete := "foo" }

/-- Queries whose stack computation failed on a dot error leaf. -/
def c1DotQueries : PosQueries := { emptyQueries with stack := .error { value := "." } }

/-- Queries whose stack computation failed on a non-dot error leaf, with a visible global
scope. -/
def c1PlusQueries : PosQueries :=
  { emptyQueries with stack := .error { value := "+" }, global_filters := [[sampleName]] }

/-- A parse stack whose last flattened node is `as`, with a keyword and NAME allowed. -/
def c2AsStack : ParseStack :=
  { nodes := [{ nonterminal := "file_input", from_rule := "file_input", nodes := ["as"] }],
    allowed := [Transition.sym "pass", Transition.tok "NAME"] }

/-- Queries presenting the `as`-ending stack. -/
def c2AsQueries : PosQueries := { emptyQueries with stack := .ok c2AsStack }

/-- A parse stack with no matched nodes, a keyword and NAME allowed. -/
def c2OkStack : ParseStack :=
  { nodes := [{ nonterminal := "file_input", from_rule := "file_input", nodes := [] }],
    allowed := [Transition.sym "pass", Transition.tok "NAME"] }

/-- Queries presenting the benign stack. -/
def c2OkQueries : PosQueries := { emptyQueries with stack := .ok c2OkStack }

/-- An ancestor chain: a misaligned if statement, a funcdef (not a flow type), and an
aligned for statement. -/
def c3Chain : List PNode :=
  [{ type := "if_stmt", start_col := 8, first_leaf_child_value := none },
   { type := "funcdef", start_col := 4, first_leaf_child_value := none },
   { type := "for_stmt", start_col := 4, first_leaf_child_value := none }]

/-- Queries for the flow-walk fixture: the leaf sits exactly at the queried position. -/
def c3Queries : PosQueries :=
  { emptyQueries with
    leaf_chain := [{ defaultLeaf with start_pos := (3, 4), end_pos := (3, 4) }],
    prev_ancestors := some c3Chain }

/-- Ranking fixture names. -/
def c4Visible : Name :=
  { string_name := "visible", api_type := "statement", display := "visible", complete := "visible" }

/-- Ranking fixture names. -/
def c4Private : Name :=
  { string_name := "_private", api_type := "statement", display := "_private",
    complete := "_private" }

/-- Ranking fixture names. -/
def c4Dunder : Name :=
  { string_name := "__dunder__", api_type := "statement", display := "__dunder__",
    complete := "__dunder__" }

/-- A stack reaching the general-scope branch with NAME allowed. -/
def c4Stack : ParseStack :=
  { nodes := [{ nonterminal := "file_input", from_rule := "file_input", nodes := [] }],
    allowed := [Transition.tok "NAME"] }

/-- Queries whose global scope offers the three ranking fixture names, deliberately out of
order. -/
def c4Queries : PosQueries :=
  { emptyQueries with
    stack := .ok c4Stack
    global_filters := [[c4Dunder, c4Visible, c4Private]] }

/-- Oracle for the ranking fixture. -/
def c4Oracle : Oracle := { globals := emptyGlobals, atPos := fun _ => c4Queries }

/-- Two names with the same identity key but different origins. -/
def c5Name1 : Name :=
  { string_name := "foo", api_type := "function", display := "foo", complete := "oo" }

/-- Two names with the same identity key but different origins. -/
def c5Name2 : Name :=
  { string_name := "foo", api_type := "statement", display := "foo", complete := "oo" }

/-- An unterminated-string leaf fixture. -/
def c7Leaf : PLeaf :=
  { type := "string", value := "\x27abc", code := "\x27abc", start_pos := (1, 0),
    end_pos := (1, 4) }

/-- Queries placing the cursor inside the string leaf. -/
def c7Queries : PosQueries :=
  { emptyQueries with leaf_chain := [c7Leaf], cut_value := fun _ => "\x27abc" }

/-- A path candidate returned by the external path completer. -/
def c7Name : Name :=
  { string_name := "pathcomp", api_type := "path", display := "pathcomp", complete := "pathcomp" }

/-- Globals whose path completer answers with one candidate. -/
def c7Globals : Globals :=
  { emptyGlobals with complete_file_name := fun _ _ _ _ _ => [⟨c7Name, []⟩] }

/-- Oracle for the string fast-path fixture. -/
def c7Oracle : Oracle := { globals := c7Globals, atPos := fun _ => c7Queries }

/-- C1: when computing the parse stack at the effective position fails on an error leaf,
`_complete_python` recovers instead of propagating the failure: a dot-valued error leaf
yields the empty candidate list, and any other error-leaf value yields exactly the general
scope completion.  The embedding is a total function, so neither case surfaces an error to
the caller. -/
theorem errorLeaf_recovery (G : Globals) (Q : PosQueries) (pos : Pos) (e : ErrorLeaf)
    (h : Q.stack = .error e) :
    (e.value = "." → complete_python G Q pos = []) ∧
    (e.value ≠ "." → complete_python G Q pos = complete_global_scope Q) := by
  constructor <;> intro hv <;> simp [complete_python, h, hv]

/-- Witness for C1 at concrete fixtures: a dot error leaf gives no candidates, a plus error
leaf gives the global scope completion. -/
theorem errorLeaf_recovery_witness :
    complete_python emptyGlobals c1DotQueries (1, 0) = [] ∧
    complete_python emptyGlobals c1PlusQueries (1, 0) = complete_global_scope c1PlusQueries :=
  ⟨(errorLeaf_recovery emptyGlobals c1DotQueries (1, 0) { value := "." } rfl).1 rfl,
   (errorLeaf_recovery emptyGlobals c1PlusQueries (1, 0) { value := "+" } rfl).2 (by decide)⟩

/-- The flow-ancestor walk scans the whole ancestor chain: it keeps exactly the
flow/error-typed ancestors and concatenates each one's contribution. -/
theorem flowWalk_eq (indent : Nat) (chain : List PNode) :
    flowWalk indent chain =
      ((chain.filter fun n => decide (n.type ∈ flowAncestorTypes)).map
        (stmtContribution indent)).flatten := by
  induction chain with
  | nil => rfl
  | cons stmt rest ih =>
    by_cases h : stmt.type ∈ flowAncestorTypes <;> simp [flowWalk, h, ih]

/-- C3: with `if` among the allowed transitions and a previous leaf present, the walk
visits every flow-typed or error-node ancestor in the chain; each aligned ancestor adds its
continuation keywords (elif/else for if, except/finally/else for try, else for for, nothing
for while), each misaligned ancestor adds nothing, and the walk continues past misaligned
ancestors, accumulating every aligned ancestor's contribution. -/
theorem flowAncestor_walk (Q : PosQueries) (pos : Pos)
    (allowed_transitions : List Transition) (chain : List PNode)
    (hif : Transition.sym "if" ∈ allowed_transitions)
    (hprev : Q.prev_ancestors = some chain) :
    extendTransitions Q pos allowed_transitions =
      allowed_transitions ++
        ((chain.filter fun n => decide (n.type ∈ flowAncestorTypes)).map
          fun n => (stmtContribution (alignIndent Q pos) n).map Transition.sym).flatten ∧
    (∀ indent n, n.start_col ≠ indent → stmtContribution indent n = []) ∧
    (∀ indent n, n.start_col = indent →
      stmtContribution indent n = flowStmtKeywords (reinterpretedType n)) ∧
    flowStmtKeywords "if_stmt" = ["elif", "else"] ∧
    flowStmtKeywords "try_stmt" = ["except", "finally", "else"] ∧
    flowStmtKeywords "for_stmt" = ["else"] ∧
    flowStmtKeywords "while_stmt" = [] := by
  refine ⟨?_, ?_, ?_, rfl, rfl, rfl, rfl⟩
  · simp only [extendTransitions, if_pos hif, hprev]
    rw [flowWalk_eq, List.map_flatten, List.map_map]
    rfl
  · intro indent n h
    simp [stmtContribution, h]
  · intro indent n h
    simp [stmtContribution, h]

/-- Witness for C3 at a concrete chain holding a misaligned if statement, a funcdef and an
aligned for statement. -/
theorem flowAncestor_walk_witness :
    extendTransitions c3Queries (3, 4) [Transition.sym "if"] =
      [Transition.sym "if"] ++
        ((c3Chain.filter fun n => decide (n.type ∈ flowAncestorTypes)).map
          fun n => (stmtContribution (alignIndent c3Queries (3, 4)) n).map Transition.sym).flatten :=
  (flowAncestor_walk c3Queries (3, 4) [Transition.sym "if"] c3Chain (by decide) rfl).1

/-- C9: the entry point is deterministic — two runs of `complete` with identical request
state, fuzzy flag and collaborator answers produce identical ordered candidate
sequences. -/
theorem complete_deterministic (O O' : Oracle) (st st' : CompState) (fuzzy fuzzy' : Bool)
    (hO : O = O') (hst : st = st') (hf : fuzzy = fuzzy') :
    Completion.complete O st fuzzy = Completion.complete O' st' fuzzy' := by
  subst hO
  subst hst
  subst hf
  rfl

/-- Witness for C9 at a concrete oracle and request. -/
theorem complete_deterministic_witness :
    Completion.complete sampleOracle (mkCompletion "ab" (1, 5)) false =
      Completion.complete sampleOracle (mkCompletion "ab" (1, 5)) false :=
  complete_deterministic sampleOracle sampleOracle (mkCompletion "ab" (1, 5))
    (mkCompletion "ab" (1, 5)) false false rfl rfl rfl

/-- C10: `_complete_inherited` yields a name exactly when an enclosing classdef exists
whose starting column is strictly less than the leaf's starting column, the name comes
from a filter after the first (the class's own dict is skipped), and the name's
being-a-function equals the `is_function` flag. -/
theorem inherited_membership (Q : PosQueries) (is_function : Bool) (n : Name) :
    n ∈ complete_inherited Q is_function ↔
      ∃ cls, Q.classdef_ancestor = some cls ∧
        cls.start_col < (headLeaf Q).start_pos.2 ∧
        n ∈ ((Q.class_filters cls).drop 1).flatten ∧
        (n.api_type == "function") = is_function := by
  cases hc : Q.classdef_ancestor with
  | none => simp [complete_inherited, hc]
  | some cls =>
    by_cases hcol : (headLeaf Q).start_pos.2 ≤ cls.start_col
    · simp only [complete_inherited, hc, if_pos hcol, List.not_mem_nil, false_iff]
      rintro ⟨cls2, hcls2, hlt, -, -⟩
      obtain rfl : cls = cls2 := Option.some.inj hcls2
      omega
    · simp only [complete_inherited, hc, if_neg hcol]
      constructor
      · intro hmem
        rw [List.mem_filter] at hmem
        exact ⟨cls, rfl, Nat.lt_of_not_le hcol, hmem.1, by simpa using hmem.2⟩
      · rintro ⟨cls2, hcls2, hlt, hmem, hapi⟩
        obtain rfl : cls = cls2 := Option.some.inj hcls2
        rw [List.mem_filter]
        exact ⟨hmem, by simpa using hapi⟩

/-- C2 counterexample: at a concrete request the harvest condition holds and a keyword is
harvested, yet because the last matched node is `as` the dispatch returns only the
inherited completions and the harvested keyword is absent from the returned list. -/
theorem keywordHarvest_discarded :
    harvestCond (currentLineAt emptyGlobals (1, 0)) = true ∧
    complete_keywords (extendTransitions c2AsQueries (1, 0) c2AsStack.allowed) =
      [keywordName "pass"] ∧
    complete_python emptyGlobals c2AsQueries (1, 0) = [] := by
  refine ⟨rfl, by decide, by decide⟩

/-- C2 amended: whenever the parse stack is computed, the harvest condition holds and the
last matched node is not `as`, `def` or `class`, the harvested keyword candidates are a
prefix of the returned candidate list (the `as`/`def`/`class` branch instead discards them
and returns only the inherited completions). -/
theorem keywordHarvest_additive (G : Globals) (Q : PosQueries) (pos : Pos)
    (stack : ParseStack)
    (hs : Q.stack = .ok stack)
    (hh : harvestCond (currentLineAt G pos) = true)
    (hb : lastIsAsDefClass (stackNodesFlat stack) = false) :
    ∃ rest, complete_python G Q pos =
      complete_keywords (extendTransitions Q pos stack.allowed) ++ rest := by
  simp only [complete_python, hs, hh, hb, if_true, if_false, eq_self_iff_true,
    Bool.false_eq_true]
  repeat' split
  all_goals first
    | exact ⟨[], (List.append_nil _).symm⟩
    | exact ⟨_, rfl⟩
    | exact ⟨_, List.append_assoc _ _ _⟩
    | exact ⟨_, (List.append_assoc _ _ _).trans (List.append_assoc _ _ _)⟩

/-- Witness for C2 (amended) at a concrete request reaching the general-scope branch. -/
theorem keywordHarvest_additive_witness :
    ∃ rest, complete_python emptyGlobals c2OkQueries (1, 0) =
      complete_keywords (extendTransitions c2OkQueries (1, 0) c2OkStack.allowed) ++ rest :=
  keywordHarvest_additive emptyGlobals c2OkQueries (1, 0) c2OkStack rfl (by decide) (by decide)

/-- C5: two matching names with the same identity key — with duplicate suppression enabled
only the first is emitted and the second lands in its same-name list, which then has
length one; with suppression disabled both are emitted as independent candidates. -/
theorem filter_names_dedup (case_insensitive fuzzy : Bool) (like_name : String)
    (n1 n2 : Name)
    (hm1 : nameMatches case_insensitive fuzzy like_name n1 = true)
    (hm2 : nameMatches case_insensitive fuzzy like_name n2 = true)
    (hk : candKeyOf n1 = candKeyOf n2) :
    (filter_names case_insensitive true fuzzy like_name [n1, n2] =
        [{ cand := n1, same_name_completions := [n2] }] ∧
      ({ cand := n1, same_name_completions := [n2] } : Emitted).same_name_completions.length
        = 1) ∧
    filter_names case_insensitive false fuzzy like_name [n1, n2] =
      [{ cand := n1, same_name_completions := [] },
       { cand := n2, same_name_completions := [] }] := by
  simp only [nameMatches] at hm1 hm2
  refine ⟨⟨?_, rfl⟩, ?_⟩ <;>
    simp [filter_names, filter_names_loop, hm1, hm2, hk, appendSameName]

/-- Witness for C5 at two concrete same-key names from different origins. -/
theorem filter_names_dedup_witness :
    (filter_names false true false "f" [c5Name1, c5Name2] =
        [{ cand := c5Name1, same_name_completions := [c5Name2] }] ∧
      ({ cand := c5Name1, same_name_completions := [c5Name2] } : Emitted).same_name_completions.length
        = 1) ∧
    filter_names false false false "f" [c5Name1, c5Name2] =
      [{ cand := c5Name1, same_name_completions := [] },
       { cand := c5Name2, same_name_completions := [] }] :=
  filter_names_dedup false false "f" c5Name1 c5Name2 (by decide) (by decide) rfl

/-- C7: when the position is inside an unterminated string (the extraction succeeds) and
the external path/string completer yields candidates, `complete` returns exactly that list,
bypassing the grammar pipeline (classification, like-name filtering, de-duplication and the
ranking sort); when the completer yields nothing, `complete` runs the grammar pipeline. -/
theorem string_fast_path (O : Oracle) (st : CompState) (fuzzy : Bool) (s : String)
    (l : PLeaf)
    (h : extract_string_while_in_string (O.atPos st.position) st.position = some (s, l)) :
    (O.globals.complete_file_name s l st.like_name st.original_position fuzzy ≠ [] →
      Completion.complete O st fuzzy =
        O.globals.complete_file_name s l st.like_name st.original_position fuzzy) ∧
    (O.globals.complete_file_name s l st.like_name st.original_position fuzzy = [] →
      Completion.complete O st fuzzy = grammarCompletions O st fuzzy) := by
  constructor <;> intro hc <;>
    simp [Completion.complete, h, hc, List.isEmpty_iff]

/-- Witness for C7: a concrete request inside an unterminated string where the path
completer answers with one candidate, returned unchanged. -/
theorem string_fast_path_witness :
    Completion.complete c7Oracle (mkCompletion "" (1, 3)) false =
      [{ cand := c7Name, same_name_completions := [] }] :=
  (string_fast_path c7Oracle (mkCompletion "" (1, 3)) false "abc" c7Leaf (by decide)).1
    (by decide)

/-- C8: the effective position equals the cursor position with the column decreased by
exactly the like-name's length, and it is the position at which all collaborator lookups
are made — two oracles agreeing at the effective position (and on the global collaborators)
give identical results. -/
theorem effective_position (like_name : String) (pos : Pos) (O O' : Oracle) (fuzzy : Bool)
    (hlen : like_name.toList.length ≤ pos.2)
    (hG : O.globals = O'.globals)
    (hQ : O.atPos (mkCompletion like_name pos).position =
      O'.atPos (mkCompletion like_name pos).position) :
    (mkCompletion like_name pos).position.1 = pos.1 ∧
    (mkCompletion like_name pos).position.2 + like_name.toList.length = pos.2 ∧
    Completion.complete O (mkCompletion like_name pos) fuzzy =
      Completion.complete O' (mkCompletion like_name pos) fuzzy := by
  refine ⟨rfl, Nat.sub_add_cancel hlen, ?_⟩
  unfold Completion.complete grammarCompletions
  rw [hG, hQ]

/-- Witness for C8 at a concrete like-name and position. -/
theorem effective_position_witness :
    (mkCompletion "ab" (1, 5)).position.1 = 1 ∧
    (mkCompletion "ab" (1, 5)).position.2 + "ab".toList.length = 5 ∧
    Completion.complete sampleOracle (mkCompletion "ab" (1, 5)) false =
      Completion.complete sampleOracle (mkCompletion "ab" (1, 5)) false :=
  effective_position "ab" (1, 5) sampleOracle sampleOracle false (by decide) rfl rfl

/-- Totality of the code-point lexicographic order. -/
theorem charListLe_total : ∀ a b : List Char, charListLe a b || charListLe b a := by
  intro a
  induction a with
  | nil => intro b; simp [charListLe]
  | cons x xs ih =>
    intro b
    cases b with
    | nil => simp [charListLe]
    | cons y ys =>
      simp only [charListLe]
      rcases Nat.lt_trichotomy x.toNat y.toNat with h | h | h
      · simp [h]
      · simp only [h, Nat.lt_irrefl, if_false, ite_false]
        simpa using ih ys
      · simp [h, Nat.lt_asymm h]

/-- Transitivity of the code-point lexicographic order. -/
theorem charListLe_trans : ∀ a b c : List Char, charListLe a b → charListLe b c →
    charListLe a c := by
  intro a
  induction a with
  | nil => intro b c _ _; simp [charListLe]
  | cons x xs ih =>
    intro b c hab hbc
    cases b with
    | nil => simp [charListLe] at hab
    | cons y ys =>
      cases c with
      | nil => simp [charListLe] at hbc
      | cons z zs =>
        simp only [charListLe] at hab hbc ⊢
        rcases Nat.lt_trichotomy x.toNat y.toNat with h1 | h1 | h1
        · rcases Nat.lt_trichotomy y.toNat z.toNat with h2 | h2 | h2
          · have h3 : x.toNat < z.toNat := by omega
            simp [h3]
          · have h3 : x.toNat < z.toNat := by omega
            simp [h3]
          · simp [Nat.lt_asymm h2, h2] at hbc
        · rcases Nat.lt_trichotomy y.toNat z.toNat with h2 | h2 | h2
          · have h3 : x.toNat < z.toNat := by omega
            simp [h3]
          · have h3 : ¬ x.toNat < z.toNat := by omega
            have h4 : ¬ z.toNat < x.toNat := by omega
            have h5 : ¬ x.toNat < y.toNat := by omega
            have h6 : ¬ y.toNat < x.toNat := by omega
            have h7 : ¬ y.toNat < z.toNat := by omega
            have h8 : ¬ z.toNat < y.toNat := by omega
            simp only [h5, h6, if_false, ite_false] at hab
            simp only [h7, h8, if_false, ite_false] at hbc
            simp only [h3, h4, if_false, ite_false]
            exact ih ys zs hab hbc
          · simp [Nat.lt_asymm h2, h2] at hbc
        · simp [Nat.lt_asymm h1, h1] at hab

/-- Totality of the ranking-key order. -/
theorem keyLe_total (a b : Bool × Bool × String) : keyLe a b || keyLe b a := by
  obtain ⟨a1, a2, a3⟩ := a
  obtain ⟨b1, b2, b3⟩ := b
  simp only [keyLe]
  cases a1 <;> cases b1 <;> cases a2 <;> cases b2 <;> simp [boolLe] <;>
    simpa using charListLe_total a3.toList b3.toList

/-- Transitivity of the ranking-key order. -/
theorem keyLe_trans (a b c : Bool × Bool × String) (hab : keyLe a b) (hbc : keyLe b c) :
    keyLe a c := by
  obtain ⟨a1, a2, a3⟩ := a
  obtain ⟨b1, b2, b3⟩ := b
  obtain ⟨c1, c2, c3⟩ := c
  simp only [keyLe] at hab hbc ⊢
  cases a1 <;> cases b1 <;> cases c1 <;> cases a2 <;> cases b2 <;> cases c2 <;>
    simp_all [boolLe] <;>
    exact charListLe_trans _ _ _ hab hbc

/-- Transitivity of the candidate ranking order. -/
theorem completionLe_trans (x y z : Emitted) (h1 : completionLe x y) (h2 : completionLe y z) :
    completionLe x z := keyLe_trans _ _ _ h1 h2

/-- Totality of the candidate ranking order. -/
theorem completionLe_total (x y : Emitted) : completionLe x y || completionLe y x :=
  keyLe_total _ _

/-- C4: every request that does not take the string fast path returns a sequence sorted
ascending by the key (starts with a double underscore, starts with an underscore,
lower-cased name) — ordinary names first, then single-underscore names, then dunder names;
in particular candidates named visible, _private and __dunder__ come out in exactly that
order. -/
theorem ranking_sorted :
    (∀ (O : Oracle) (st : CompState) (fuzzy : Bool),
      (extract_string_while_in_string (O.atPos st.position) st.position = none ∨
        ∀ s l, extract_string_while_in_string (O.atPos st.position) st.position = some (s, l) →
          O.globals.complete_file_name s l st.like_name st.original_position fuzzy = []) →
      List.Pairwise (fun x y => completionLe x y = true) (Completion.complete O st fuzzy)) ∧
    Completion.complete c4Oracle (mkCompletion "" (1, 0)) false =
      [{ cand := c4Visible, same_name_completions := [] },
       { cand := c4Private, same_name_completions := [] },
       { cand := c4Dunder, same_name_completions := [] }] := by
  have hsorted : ∀ (l : List Name) (ci nd fz : Bool) (ln : String),
      List.Pairwise (fun x y => completionLe x y = true)
        (sortCompletions (filter_names ci nd fz ln l)) := by
    intro l ci nd fz ln
    exact List.sorted_mergeSort (fun a b c => completionLe_trans a b c)
      (fun a b => completionLe_total a b) _
  constructor
  · intro O st fuzzy h
    rcases hx : extract_string_while_in_string (O.atPos st.position) st.position with _ | ⟨s, l⟩
    · simp only [Completion.complete, hx]
      exact hsorted _ _ _ _ _
    · rcases h with h | h
      · rw [hx] at h
        exact Option.noConfusion h
      · have hempty := h s l hx
        simp only [Completion.complete, hx, hempty, List.isEmpty_nil, if_true]
        exact hsorted _ _ _ _ _
  · have hx : extract_string_while_in_string (c4Oracle.atPos (mkCompletion "" (1, 0)).position)
        (mkCompletion "" (1, 0)).position = none := by decide
    have h2 : filter_names c4Oracle.globals.case_insensitive_completion
        c4Oracle.globals.no_completion_duplicates false (mkCompletion "" (1, 0)).like_name
        (complete_python c4Oracle.globals (c4Oracle.atPos (mkCompletion "" (1, 0)).position)
          (mkCompletion "" (1, 0)).position) =
        [{ cand := c4Dunder, same_name_completions := [] },
         { cand := c4Visible, same_name_completions := [] },
         { cand := c4Private, same_name_completions := [] }] := by decide
    simp only [Completion.complete, grammarCompletions, hx, h2]
    simp +decide [sortCompletions, List.mergeSort, List.merge]

/-- Witness for C4: the general sortedness applied at the concrete ranking fixture. -/
theorem ranking_sorted_witness :
    List.Pairwise (fun x y => completionLe x y = true)
      (Completion.complete c4Oracle (mkCompletion "" (1, 0)) false) :=
  ranking_sorted.1 c4Oracle (mkCompletion "" (1, 0)) false (Or.inl (by decide))

/-- The per-return-statement test of the source coincides with the structural
qualification predicate, and on success yields the trailer resolution of the inferred
first argument. -/
theorem getattrQualifyingResult_eq (tfv : List Value → List Name) (func : FuncModel)
    (r : TNode) :
    getattrQualifyingResult tfv func r =
      if qualifiesGetattrReturn func r then some (tfv (func.infer_node (getattrFirstArg r)))
      else none := by
  obtain ⟨ty, v, cs⟩ := r
  by_cases hty : ty = "return_stmt"
  case neg =>
    cases cs with
    | nil => simp [getattrQualifyingResult, qualifiesGetattrReturn, TNode.type, hty]
    | cons c0 cs =>
    cases cs with
    | nil => simp [getattrQualifyingResult, qualifiesGetattrReturn, TNode.type, hty]
    | cons ae rest =>
    obtain ⟨aty, av, acs⟩ := ae
    cases acs with
    | nil => simp [getattrQualifyingResult, qualifiesGetattrReturn, TNode.type, hty]
    | cons atom acs =>
    cases acs with
    | nil => simp [getattrQualifyingResult, qualifiesGetattrReturn, TNode.type, hty]
    | cons trailer acs =>
    cases acs with
    | cons extra acs =>
      simp [getattrQualifyingResult, qualifiesGetattrReturn, TNode.type, hty]
    | nil =>
    obtain ⟨nty, nval, nks⟩ := atom
    obtain ⟨tty, tval, tcs⟩ := trailer
    cases tcs with
    | nil => simp [getattrQualifyingResult, qualifiesGetattrReturn, TNode.type, hty]
    | cons t0 tcs =>
    cases tcs with
    | nil => simp [getattrQualifyingResult, qualifiesGetattrReturn, TNode.type, hty]
    | cons arg trest =>
    obtain ⟨gty, gval, gcs⟩ := arg
    rcases gcs with _ | ⟨a0, _ | ⟨a1, _ | ⟨a2, grest⟩⟩⟩ <;>
      simp [getattrQualifyingResult, qualifiesGetattrReturn, TNode.type, hty]
  case pos =>
    subst hty
    cases cs with
    | nil =>
      simp [getattrQualifyingResult, qualifiesGetattrReturn, TNode.type, TNode.children,
        List.getD, defaultTNode]
    | cons c0 cs =>
    cases cs with
    | nil =>
      simp [getattrQualifyingResult, qualifiesGetattrReturn, TNode.type, TNode.children,
        List.getD, defaultTNode]
    | cons ae rest =>
    obtain ⟨aty, av, acs⟩ := ae
    by_cases haty : aty = "atom_expr"
    case neg =>
      cases acs with
      | nil =>
        simp [getattrQualifyingResult, qualifiesGetattrReturn, TNode.type, TNode.children,
          List.getD, defaultTNode, haty]
      | cons atom acs =>
      cases acs with
      | nil =>
        simp [getattrQualifyingResult, qualifiesGetattrReturn, TNode.type, TNode.children,
          List.getD, defaultTNode, haty]
      | cons trailer acs =>
      cases acs with
      | cons extra acs =>
        simp [getattrQualifyingResult, qualifiesGetattrReturn, TNode.type, TNode.children,
          List.getD, defaultTNode, haty]
      | nil =>
      obtain ⟨nty, nval, nks⟩ := atom
      obtain ⟨tty, tval, tcs⟩ := trailer
      cases tcs with
      | nil =>
        simp [getattrQualifyingResult, qualifiesGetattrReturn, TNode.type, TNode.children,
          List.getD, defaultTNode, haty]
      | cons t0 tcs =>
      cases tcs with
      | nil =>
        simp [getattrQualifyingResult, qualifiesGetattrReturn, TNode.type, TNode.children,
          List.getD, defaultTNode, haty]
      | cons arg trest =>
      obtain ⟨gty, gval, gcs⟩ := arg
      rcases gcs with _ | ⟨a0, _ | ⟨a1, _ | ⟨a2, grest⟩⟩⟩ <;>
        simp [getattrQualifyingResult, qualifiesGetattrReturn, TNode.type, TNode.children,
          List.getD, defaultTNode, haty]
    case pos =>
      subst haty
      cases acs with
      | nil =>
        simp [getattrQualifyingResult, qualifiesGetattrReturn, TNode.type, TNode.children,
          List.getD, defaultTNode]
      | cons atom acs =>
      cases acs with
      | nil =>
        simp [getattrQualifyingResult, qualifiesGetattrReturn, TNode.type, TNode.children,
          List.getD, defaultTNode]
      | cons trailer acs =>
      cases acs with
      | cons extra acs =>
        simp [getattrQualifyingResult, qualifiesGetattrReturn, TNode.type, TNode.children,
          List.getD, defaultTNode]
      | nil =>
      obtain ⟨nty, nval, nks⟩ := atom
      obtain ⟨tty, tval, tcs⟩ := trailer
      by_cases hnty : nty = "name"
      case neg =>
        cases tcs with
        | nil =>
          simp [getattrQualifyingResult, qualifiesGetattrReturn, TNode.type, TNode.value,
            TNode.children, List.getD, defaultTNode, hnty]
        | cons t0 tcs =>
        cases tcs with
        | nil =>
          simp [getattrQualifyingResult, qualifiesGetattrReturn, TNode.type, TNode.value,
            TNode.children, List.getD, defaultTNode, hnty]
        | cons arg trest =>
        obtain ⟨gty, gval, gcs⟩ := arg
        rcases gcs with _ | ⟨a0, _ | ⟨a1, _ | ⟨a2, grest⟩⟩⟩ <;>
          simp [getattrQualifyingResult, qualifiesGetattrReturn, TNode.type, TNode.value,
            TNode.children, List.getD, defaultTNode, hnty]
      case pos =>
      subst hnty
      by_cases hnval : nval = "getattr"
      case neg =>
        cases tcs with
        | nil =>
          simp [getattrQualifyingResult, qualifiesGetattrReturn, TNode.type, TNode.value,
            TNode.children, List.getD, defaultTNode, hnval]
        | cons t0 tcs =>
        cases tcs with
        | nil =>
          simp [getattrQualifyingResult, qualifiesGetattrReturn, TNode.type, TNode.value,
            TNode.children, List.getD, defaultTNode, hnval]
        | cons arg trest =>
        obtain ⟨gty, gval, gcs⟩ := arg
        rcases gcs with _ | ⟨a0, _ | ⟨a1, _ | ⟨a2, grest⟩⟩⟩ <;>
          simp [getattrQualifyingResult, qualifiesGetattrReturn, TNode.type, TNode.value,
            TNode.children, List.getD, defaultTNode, hnval]
      case pos =>
      subst hnval
      cases tcs with
      | nil =>
        simp [getattrQualifyingResult, qualifiesGetattrReturn, TNode.type, TNode.value,
          TNode.children, List.getD, defaultTNode]
      | cons t0 tcs =>
      cases tcs with
      | nil =>
        simp [getattrQualifyingResult, qualifiesGetattrReturn, TNode.type, TNode.value,
          TNode.children, List.getD, defaultTNode]
      | cons arg trest =>
      obtain ⟨gty, gval, gcs⟩ := arg
      by_cases hgty : gty = "arglist"
      case neg =>
        rcases gcs with _ | ⟨a0, _ | ⟨a1, _ | ⟨a2, grest⟩⟩⟩ <;>
          simp [getattrQualifyingResult, qualifiesGetattrReturn, TNode.type, TNode.value,
            TNode.children, List.getD, defaultTNode, hgty]
      case pos =>
      subst hgty
      rcases gcs with _ | ⟨a0, _ | ⟨a1, _ | ⟨a2, grest⟩⟩⟩
      · simp [getattrQualifyingResult, qualifiesGetattrReturn, TNode.type, TNode.value,
          TNode.children, List.getD, defaultTNode]
      · simp [getattrQualifyingResult, qualifiesGetattrReturn, TNode.type, TNode.value,
          TNode.children, List.getD, defaultTNode]
      · simp [getattrQualifyingResult, qualifiesGetattrReturn, TNode.type, TNode.value,
          TNode.children, List.getD, defaultTNode]
      · have hlen : ¬ (a0 :: a1 :: a2 :: grest).length < 3 := by
          simp only [List.length_cons]
          omega
        by_cases hgoto : ((func.goto a2).any fun n => n.api_type == "param") = true <;>
          simp [getattrQualifyingResult, qualifiesGetattrReturn, TNode.type, TNode.value,
            TNode.children, List.getD, defaultTNode, getattrFirstArg, hlen, hgoto]

/-- C6: `_complete_getattr` returns the trailer resolution of the inferred first argument
of the first qualifying return statement (a two-part attribute access whose base name is
exactly `getattr` with a single call trailer, an argument list with a first and a third
child, the third resolving to a parameter), and no candidates when no function has a
qualifying return. -/
theorem getattr_heuristic (G : Globals) (tfv : List Value → List Name) (inst : Value) :
    complete_getattr G tfv inst =
      ((getattrFunctions G inst).findSome? fun func =>
        func.return_stmts.findSome? fun r =>
          if qualifiesGetattrReturn func r then
            some (tfv (func.infer_node (getattrFirstArg r)))
          else none).getD [] := by
  unfold complete_getattr
  simp only [getattrQualifyingResult_eq]

end Jedi

